import Mathlib

set_option maxHeartbeats 1000000

/-!
Verification development for doppelganger (src/doppelganger.js).

The file shallowly embeds the initialization serializer, the reference-counted
global overlay, the configuration patcher and the public instance operations of
the Doppelganger class, and proves or refutes the frozen specification claims
about them.

Conventions of the embedding:
* JavaScript runtime values are modelled by the opaque type JsVal; the node
  global object is modelled as a partial map from property names to JsVal
  (absent property = none, and reading an absent property yields undefined).
* The closure-local dictionary named globals in _initRequireJS (line 166)
  is modelled as a partial map from names to Int counts.  Int (not Nat) is
  used so that the decrement-then-compare step of _unsetGlobal is modelled
  exactly, including on states the code itself never constructs.
* Exceptions are modelled by threading an Option error component: a some
  error aborts the rest of the function body, exactly as a JS throw without
  try/finally does.
-/

/-- JavaScript runtime values as far as this code observes them: the undefined
value plus opaque object/primitive tokens distinguished by a tag. -/
inductive JsVal where
  | undefined : JsVal
  | box : Nat → JsVal
  deriving DecidableEq, Repr

/-- The closure-local reference-count table (the variable named globals declared
at line 166 of _initRequireJS): name of a global binding to outstanding install
count. -/
abbrev Tbl := String → Option Int

/-- The process-wide global namespace (the node global object), restricted to the
slots the overlay touches; none means the property is absent. -/
abbrev Slots := String → Option JsVal

/-- Pointwise update of a count table. -/
def updT (t : Tbl) (p : String) (v : Option Int) : Tbl :=
  fun q => if q = p then v else t q

/-- Pointwise update of the global slots. -/
def updS (sl : Slots) (p : String) (v : Option JsVal) : Slots :=
  fun q => if q = p then v else sl q

/-- Reading global[p]: an absent property reads as undefined. -/
def readSlot (sl : Slots) (p : String) : JsVal :=
  (sl p).getD JsVal.undefined

/-- _setGlobal (lines 279-287): if the name already has an outstanding count the
count is incremented and the slot is left alone, otherwise the slot is assigned
and the count starts at 1; the result is the value of global[property] after
the call. -/
def setGlobal (t : Tbl) (sl : Slots) (p : String) (v : JsVal) : JsVal × Tbl × Slots :=
  match t p with
  | some n => (readSlot sl p, updT t p (some (n + 1)), sl)
  | none => (v, updT t p (some 1), updS sl p (some v))

/-- _unsetGlobal (lines 297-305): a name with no outstanding count is a no-op
returning false; otherwise the count is decremented and, exactly when it reaches
zero, both the global slot and the table entry are deleted and true is
returned. -/
def unsetGlobal (t : Tbl) (sl : Slots) (p : String) : Bool × Tbl × Slots :=
  match t p with
  | none => (false, t, sl)
  | some n =>
    if n - 1 = 0 then (true, updT t p none, updS sl p none)
    else (false, updT t p (some (n - 1)), sl)

/-- A chain of nested _setGlobal calls on one name, collecting the returned
values in order. -/
def installChain (t : Tbl) (sl : Slots) (p : String) : List JsVal → List JsVal × Tbl × Slots
  | [] => ([], t, sl)
  | v :: vs =>
    let r := setGlobal t sl p v
    let rs := installChain r.2.1 r.2.2 p vs
    (r.1 :: rs.1, rs.2.1, rs.2.2)

/-- A chain of _unsetGlobal calls on one name, collecting the returned booleans
in order. -/
def removeChain (t : Tbl) (sl : Slots) (p : String) : Nat → List Bool × Tbl × Slots
  | 0 => ([], t, sl)
  | k + 1 =>
    let r := unsetGlobal t sl p
    let rs := removeChain r.2.1 r.2.2 p k
    (r.1 :: rs.1, rs.2.1, rs.2.2)

/-- The first for-in loop of the function returned by _exposeGlobals (line 316):
apply _setGlobal for every binding, in order, discarding the returned values. -/
def installAll : List (String × JsVal) → Tbl → Slots → Tbl × Slots
  | [], t, sl => (t, sl)
  | b :: bs, t, sl => installAll bs (setGlobal t sl b.1 b.2).2.1 (setGlobal t sl b.1 b.2).2.2

/-- The second for-in loop of the function returned by _exposeGlobals (line 322):
apply _unsetGlobal for every binding, in order. -/
def removeAll : List (String × JsVal) → Tbl → Slots → Tbl × Slots
  | [], t, sl => (t, sl)
  | b :: bs, t, sl => removeAll bs (unsetGlobal t sl b.1).2.1 (unsetGlobal t sl b.1).2.2

/-- _exposeGlobals (lines 313-324): the wrapper installs every binding, invokes
the wrapped method with its this value and arguments passed through, and then
removes every binding.  The body contains no try/finally, so a some error from
the method aborts the wrapper before the removal loop runs, exactly as a JS
exception would; the method result value is never returned (the wrapper body has
no return statement, so its caller sees undefined). -/
def exposeGlobalsWrapped
    (method : JsVal → List JsVal → Tbl → Slots → Tbl × Slots × Option Unit × JsVal)
    (bs : List (String × JsVal)) :
    JsVal → List JsVal → Tbl → Slots → Tbl × Slots × Option Unit × JsVal :=
  fun thisV args t sl =>
    let ins := installAll bs t sl
    let m := method thisV args ins.1 ins.2
    match m.2.2.1 with
    | some e => (m.1, m.2.1, some e, JsVal.undefined)
    | none =>
      let rem := removeAll bs m.1 m.2.1
      (rem.1, rem.2, none, JsVal.undefined)

/-- Number of bindings in a binding list that target the name q. -/
def occCount (q : String) : List (String × JsVal) → Nat
  | [] => 0
  | b :: bs => (if b.1 = q then 1 else 0) + occCount q bs

/-- The coupling invariant of one closure-local overlay table with the global
slots it manages: a name has an entry in the count table exactly when the
corresponding global slot is present. -/
def overlayInv (t : Tbl) (sl : Slots) : Prop :=
  ∀ q, (t q).isSome = (sl q).isSome

/-- State of the process-wide initialization serializer (lines 64-95, 327-329),
together with two observation logs: started records the order in which instance
pipelines began, completed the order in which their init callbacks fired. -/
structure SState where
  initialising : Bool
  initQueue : List Nat
  active : Option Nat
  started : List Nat
  completed : List Nat
  deriving DecidableEq, Repr

/-- The idle starting state: initialising = false, empty queue (lines 327-329). -/
def init0 : SState := ⟨false, [], none, [], []⟩

/-- Doppelganger.prototype.init (lines 64-72): while another instance is
initialising the pair (app, callback) is pushed on the queue and the call
returns; otherwise the busy flag is set and this instance becomes the active
pipeline. -/
def initApp (s : SState) (i : Nat) : SState :=
  if s.initialising then
    { s with initQueue := s.initQueue ++ [i] }
  else
    { s with initialising := true, active := some i, started := s.started ++ [i] }

/-- _handleAppInitialised (lines 87-94), run when the active pipeline signals
completion: clear the busy flag, shift the queue head (if any) and re-enter
init for it, then invoke the completed instance's own callback (recorded by
appending to completed, after the dequeued instance has started). -/
def handleAppInitialised (s : SState) : SState :=
  match s.active with
  | none => s
  | some i =>
    let s1 : SState := { s with initialising := false, active := none }
    let s2 : SState :=
      match s1.initQueue with
      | [] => s1
      | j :: rest => initApp { s1 with initQueue := rest } j
    { s2 with completed := s2.completed ++ [i] }

/-- Events of the single-threaded, callback-driven execution: an init request
for an instance, or the active pipeline reaching its completion callback. -/
inductive SEvent where
  | initReq : Nat → SEvent
  | pipelineDone : SEvent
  deriving DecidableEq, Repr

/-- One event step of the serializer. -/
def stepS (s : SState) (e : SEvent) : SState :=
  match e with
  | SEvent.initReq i => initApp s i
  | SEvent.pipelineDone => handleAppInitialised s

/-- Run a sequence of events. -/
def runS (s : SState) (es : List SEvent) : SState := es.foldl stepS s

/-- Values a loader configuration object can hold, as far as this code
inspects them: strings, arrays of module names, the host require function
assigned to nodeRequire, and otherwise-opaque values. -/
inductive CVal where
  | str : String → CVal
  | strs : List String → CVal
  | hostRequire : CVal
  | box : Nat → CVal
  deriving DecidableEq, Repr

/-- A loader configuration object: an ordered list of named fields. -/
structure Config where
  fields : List (String × CVal)
  deriving DecidableEq, Repr

/-- Property read on a configuration object. -/
def getFields : List (String × CVal) → String → Option CVal
  | [], _ => none
  | f :: fs, k => if f.1 = k then some f.2 else getFields fs k

/-- Property write on a configuration object: overwrite in place or append. -/
def setFields : List (String × CVal) → String → CVal → List (String × CVal)
  | [], k, v => [(k, v)]
  | f :: fs, k, v => if f.1 = k then (k, v) :: fs else f :: setFields fs k v

/-- Property delete on a configuration object. -/
def delFields : List (String × CVal) → String → List (String × CVal)
  | [], _ => []
  | f :: fs, k => if f.1 = k then delFields fs k else f :: delFields fs k

def getField (c : Config) (k : String) : Option CVal := getFields c.fields k

def setField (c : Config) (k : String) (v : CVal) : Config := ⟨setFields c.fields k v⟩

def delField (c : Config) (k : String) : Config := ⟨delFields c.fields k⟩

/-- JavaScript truthiness of a configuration value (an empty string is falsy;
arrays and objects are truthy even when empty). -/
def jsTruthy : CVal → Bool
  | CVal.str s => if s = "" then false else true
  | _ => true

/-- JavaScript regex whitespace class, restricted to the characters that can
occur in configuration sources. -/
def isJsSpace (c : Char) : Bool :=
  c = ' ' || c = '\t' || c = '\n' || c = '\r' || c = '\x0b' || c = '\x0c' || c = '\u00A0'

/-- Match a literal character sequence at the head of the input, returning the
rest on success. -/
def matchLit : List Char → List Char → Option (List Char)
  | [], cs => some cs
  | _ :: _, [] => none
  | l :: ls, c :: cs => if c = l then matchLit ls cs else none

/-- The fixed head of the extraction regex (line 224): the literal require,
optional whitespace, a dot, optional whitespace, the literal config, optional
whitespace and an opening parenthesis.  Returns the input remaining after the
parenthesis. -/
def matchHead (cs : List Char) : Option (List Char) :=
  match matchLit ("require".toList) cs with
  | none => none
  | some r1 =>
    match matchLit ['.'] (r1.dropWhile isJsSpace) with
    | none => none
    | some r3 =>
      match matchLit ("config".toList) (r3.dropWhile isJsSpace) with
      | none => none
      | some r5 => matchLit ['('] (r5.dropWhile isJsSpace)

/-- Index of the last occurrence of a character in a list. -/
def lastIdxOf (c : Char) : List Char → Option Nat
  | [] => none
  | a :: as =>
    match lastIdxOf c as with
    | some i => some (i + 1)
    | none => if a = c then some 0 else none

/-- Attempt the whole regex at one start position: after the head matches, the
greedy one-or-more capture runs to the last closing parenthesis anywhere in the
remaining input (it must leave at least one captured character). -/
def tryConfigAt (cs : List Char) : Option (List Char) :=
  match matchHead cs with
  | none => none
  | some rest =>
    match lastIdxOf ')' rest with
    | none => none
    | some j => if 1 ≤ j then some (rest.take j) else none

/-- The configSearch regex application of line 224: scan for the leftmost start
position at which the whole pattern matches and return the captured text. -/
def configSearch : List Char → Option (List Char)
  | [] => none
  | c :: cs =>
    match tryConfigAt (c :: cs) with
    | some cap => some cap
    | none => configSearch cs

/-- The directory part of a path as computed on lines 75 and 231:
substr(0, lastIndexOf(slash) + 1), which is empty when the path has no
separator. -/
def dirOf (path : List Char) : List Char :=
  match lastIdxOf '/' path with
  | none => []
  | some i => path.take (i + 1)

/-- _getConfigObject (lines 222-238).  The dynamic evaluation of the captured
object-literal text (the new Function hack on line 227) is a host-language
primitive and is abstracted as the parameter evalObj; evalObj returning none
covers both an evaluation that throws and a falsy result, each of which makes
the function throw its Invalid-config error (modelled as Except.error).  On
success the function overwrites baseUrl with the directory of the config path,
sets nodeRequire to the host require, and sets context when one was supplied. -/
def getConfigObject (evalObj : List Char → Option Config)
    (configFileData configFilePath : List Char) (context : Option String) :
    Except Unit Config :=
  match configSearch configFileData with
  | none => Except.error ()
  | some cap =>
    match evalObj cap with
    | none => Except.error ()
    | some cfg =>
      let cfg1 := setField cfg "baseUrl" (CVal.str (String.mk (dirOf configFilePath)))
      let cfg2 := setField cfg1 "nodeRequire" CVal.hostRequire
      let cfg3 :=
        match context with
        | some c => setField cfg2 "context" (CVal.str c)
        | none => cfg2
      Except.ok cfg3

/-- The caller of _getConfigObject (lines 173-178): obtain the patched config,
read rootDependencies as config.deps or null, then delete config.deps.
Returns the pair (patched config without deps, root dependencies). -/
def patchAndSplit (evalObj : List Char → Option Config)
    (data path : List Char) (ctx : Option String) :
    Except Unit (Config × Option CVal) :=
  match getConfigObject evalObj data path ctx with
  | Except.error e => Except.error e
  | Except.ok cfg =>
    let rootDependencies :=
      match getField cfg "deps" with
      | some v => if jsTruthy v then some v else none
      | none => none
    Except.ok (delField cfg "deps", rootDependencies)

/-- Whether an instance's config parsing succeeds; when it does not, the throw
escapes the fs.readFile callback and _handleAppInitialised is never invoked. -/
def configOk (evalObj : List Char → Option Config) (data normPath : List Char)
    (ctx : Option String) : Bool :=
  match getConfigObject evalObj data normPath ctx with
  | Except.ok _ => true
  | Except.error _ => false

/-- Whole-system run for C4: instances 0..n-1 (with the given config sources)
all request init before any completes, then pipelines run in turn.  A pipeline
signals pipelineDone exactly when its config parses (the external loader and
DOM collaborators are assumed not to fail); the first pipeline whose config
parsing throws never signals, and no later pipeline is ever started, so no
further events occur. -/
def runSystem (evalObj : List Char → Option Config) (normPath : List Char)
    (ctx : Option String) (srcs : List (List Char)) : SState :=
  runS init0 (((List.range srcs.length).map SEvent.initReq) ++
    List.replicate ((srcs.takeWhile (fun d => configOk evalObj d normPath ctx)).length)
      SEvent.pipelineDone)

/-- A concrete stand-in for the dynamic object-literal evaluator, understanding
exactly the literal used by the C4 scenario. -/
def stubEval : List Char → Option Config :=
  fun s => if s = "\x7ba:1\x7d".toList then some ⟨[("a", CVal.box 1)]⟩ else none

/-- A concrete stand-in for the dynamic object-literal evaluator, understanding
exactly the literal used by the C6 round-trip scenario. -/
def evalEx : List Char → Option Config :=
  fun s =>
    if s = "\x7bbaseUrl:\x27x\x27, deps:[\x27app\x27]\x7d".toList then
      some ⟨[("baseUrl", CVal.str "x"), ("deps", CVal.strs ["app"])]⟩
    else none

/-- The successive stages of one instance's init pipeline, in the order the
code reaches them: construction, the DOM build in init (line 78), the
require.config call and assignment of self._requirejs (lines 181-184) inside
the fs.readFile callback, the jquery load callback (line 190), the backbone
load callback (line 196), and the completion callback (the done stage, at
which the caller's init callback fires). -/
inductive Stage where
  | created
  | domBuilt
  | loaderConfigured
  | jqueryLoaded
  | backboneLoaded
  | done
  deriving DecidableEq, Repr

/-- The value of this._requirejs at each stage: null until the assignment on
line 184, which happens in the loaderConfigured stage, well before the init
callback fires. -/
def requirejsAt (loader : List JsVal → JsVal) : Stage → Option (List JsVal → JsVal)
  | Stage.created => none
  | Stage.domBuilt => none
  | _ => some loader

/-- Whether the init callback has fired by a given stage. -/
def initCallbackFired : Stage → Bool
  | Stage.done => true
  | _ => false

/-- Doppelganger.prototype.require (lines 104-107): throw the
not-yet-initialised error when this._requirejs is null, otherwise apply the
loader to the arguments unchanged and return its result. -/
def requireCall (rj : Option (List JsVal → JsVal)) (args : List JsVal) :
    Except Unit JsVal :=
  match rj with
  | none => Except.error ()
  | some f => Except.ok (f args)

/-- One entry of Backbone.history.handlers: a route matcher (the test method of
the route regex) plus an opaque callback identifier, which distinguishes the
handler object from its route field. -/
structure RHandler where
  route : String → Bool
  cb : Nat

/-- The JavaScript value returned by routeExists: either a boolean or a handler
object (the element found in the handlers array). -/
inductive RouteExistsResult where
  | bool : Bool → RouteExistsResult
  | handler : RHandler → RouteExistsResult

/-- Doppelganger.prototype.routeExists (lines 114-118): false when no framework
is loaded; true when there are no registered handlers and the path is falsy;
otherwise the first handler whose route matcher accepts the path (the find
result is the handler element itself), or false when none matches. -/
def routeExists (backboneHandlers : Option (List RHandler)) (path : String) :
    RouteExistsResult :=
  match backboneHandlers with
  | none => RouteExistsResult.bool false
  | some hs =>
    if hs.length = 0 ∧ path = "" then RouteExistsResult.bool true
    else
      match hs.find? (fun h => h.route path) with
      | some h => RouteExistsResult.handler h
      | none => RouteExistsResult.bool false


lemma removeChain_succ (t : Tbl) (sl : Slots) (p : String) (k : Nat) :
    removeChain t sl p (k + 1) =
      ((unsetGlobal t sl p).1 ::
          (removeChain (unsetGlobal t sl p).2.1 (unsetGlobal t sl p).2.2 p k).1,
        (removeChain (unsetGlobal t sl p).2.1 (unsetGlobal t sl p).2.2 p k).2.1,
        (removeChain (unsetGlobal t sl p).2.1 (unsetGlobal t sl p).2.2 p k).2.2) := rfl

lemma updT_apply_same (t : Tbl) (p : String) (v : Option Int) : updT t p v p = v := by
  simp [updT]

lemma updT_apply_other (t : Tbl) (p : String) (v : Option Int) (q : String) (h : q ≠ p) :
    updT t p v q = t q := by
  simp [updT, h]

lemma updT_collapse (t : Tbl) (p : String) (a b : Option Int) :
    updT (updT t p a) p b = updT t p b := by
  funext q
  by_cases h : q = p <;> simp [updT, h]

lemma updT_self (t : Tbl) (p : String) (v : Option Int) (h : t p = v) : updT t p v = t := by
  funext q
  by_cases hq : q = p <;> simp [updT, hq, h.symm]

lemma updS_apply_same (sl : Slots) (p : String) (v : Option JsVal) : updS sl p v p = v := by
  simp [updS]

lemma updS_apply_other (sl : Slots) (p : String) (v : Option JsVal) (q : String) (h : q ≠ p) :
    updS sl p v q = sl q := by
  simp [updS, h]

lemma updS_collapse (sl : Slots) (p : String) (a b : Option JsVal) :
    updS (updS sl p a) p b = updS sl p b := by
  funext q
  by_cases h : q = p <;> simp [updS, h]

/-- While the name is already held with count n and slot value w, a chain of
further installs only bumps the count: every call returns the held value w and
the slot is untouched. -/
lemma installChain_held (vs : List JsVal) :
    ∀ (t : Tbl) (sl : Slots) (p : String) (n : Int) (w : JsVal),
      t p = some n → sl p = some w →
      installChain t sl p vs =
        (List.replicate vs.length w, updT t p (some (n + vs.length)), sl) := by
  induction vs with
  | nil =>
    intro t sl p n w ht _
    simp [installChain, updT_self t p (some n) ht]
  | cons v vs ih =>
    intro t sl p n w ht hs
    have hset : setGlobal t sl p v = (w, updT t p (some (n + 1)), sl) := by
      simp [setGlobal, ht, readSlot, hs]
    have hrec := ih (updT t p (some (n + 1))) sl p (n + 1) w (updT_apply_same t p _) hs
    simp only [installChain, hset, hrec, updT_collapse]
    have hc : n + 1 + (vs.length : Int) = n + ((v :: vs).length : Int) := by
      simp only [List.length_cons]
      push_cast
      ring
    rw [hc]
    simp [List.replicate_succ]

/-- While the held count strictly exceeds the number of removals, every removal
returns false and only decrements the count; the slot stays in place. -/
lemma removeChain_while_held :
    ∀ (k : Nat) (t : Tbl) (sl : Slots) (p : String) (n : Nat),
      t p = some ((n : Int) + 1) → k ≤ n →
      removeChain t sl p k =
        (List.replicate k false, updT t p (some (((n - k : Nat) : Int) + 1)), sl) := by
  intro k
  induction k with
  | zero =>
    intro t sl p n ht _
    simp [removeChain, updT_self t p (some ((n : Int) + 1)) ht]
  | succ k ih =>
    intro t sl p n ht hk
    have hn : 1 ≤ n := le_trans (Nat.succ_le_succ (Nat.zero_le k)) hk
    have hne : ¬ ((n : Int) + 1 - 1 = 0) := by
      omega
    have hstep : unsetGlobal t sl p = (false, updT t p (some ((n : Int) + 1 - 1)), sl) := by
      simp only [unsetGlobal, ht]
      rw [if_neg hne]
    have hcast : (n : Int) + 1 - 1 = ((n - 1 : Nat) : Int) + 1 := by omega
    have hrec := ih (updT t p (some ((n : Int) + 1 - 1))) sl p (n - 1)
      (by rw [updT_apply_same, hcast]) (by omega)
    simp only [removeChain, hstep, hrec, updT_collapse]
    have hc : ((n - 1 - k : Nat) : Int) = ((n - (k + 1) : Nat) : Int) := by
      congr 1
      omega
    rw [hc]
    simp [List.replicate_succ]

/-- Draining a name held with count n + 1 by n + 1 removals: the first n return
false, the last returns true and deletes both the slot and the table entry. -/
lemma removeChain_drain :
    ∀ (n : Nat) (t : Tbl) (sl : Slots) (p : String),
      t p = some ((n : Int) + 1) →
      removeChain t sl p (n + 1) =
        (List.replicate n false ++ [true], updT t p none, updS sl p none) := by
  intro n
  induction n with
  | zero =>
    intro t sl p ht
    have hz : ((0 : Nat) : Int) + 1 - 1 = 0 := by norm_num
    have hstep : unsetGlobal t sl p = (true, updT t p none, updS sl p none) := by
      simp only [unsetGlobal, ht]
      rw [if_pos hz]
    simp [removeChain, hstep]
  | succ n ih =>
    intro t sl p ht
    have hne : ¬ ((((n + 1 : Nat) : Int) + 1) - 1 = 0) := by
      push_cast
      omega
    have hstep : unsetGlobal t sl p =
        (false, updT t p (some (((n + 1 : Nat) : Int) + 1 - 1)), sl) := by
      simp only [unsetGlobal, ht]
      rw [if_neg hne]
    have hcast : ((n + 1 : Nat) : Int) + 1 - 1 = (n : Int) + 1 := by push_cast; ring
    have hrec := ih (updT t p (some (((n + 1 : Nat) : Int) + 1 - 1))) sl p
      (by rw [updT_apply_same, hcast])
    rw [removeChain_succ]
    simp only [hstep, hrec, updT_collapse]
    simp [List.replicate_succ]

/-- C2: for every binding name and every chain of nested installs with values
v1..vn starting from a state with no outstanding count, the first install sets
the global slot to v1, every install in the chain returns v1 and leaves the slot
at v1 with the count equal to the number of installs so far; the first n - 1
removals return false and leave the slot in place, the nth removal returns true
and deletes both the global slot and the count entry; and a removal on a name
with no outstanding count returns false and changes nothing. -/
theorem global_overlay_refcount (t : Tbl) (sl : Slots) (p : String) (v1 : JsVal)
    (vs : List JsVal) (h : t p = none) :
    installChain t sl p (v1 :: vs) =
      (List.replicate (vs.length + 1) v1,
        updT t p (some ((vs.length : Int) + 1)), updS sl p (some v1))
    ∧ (∀ k, k ≤ vs.length →
        removeChain (updT t p (some ((vs.length : Int) + 1))) (updS sl p (some v1)) p k =
          (List.replicate k false,
            updT t p (some (((vs.length - k : Nat) : Int) + 1)), updS sl p (some v1)))
    ∧ removeChain (updT t p (some ((vs.length : Int) + 1))) (updS sl p (some v1)) p
        (vs.length + 1) =
        (List.replicate vs.length false ++ [true], updT t p none, updS sl p none)
    ∧ (∀ (t2 : Tbl) (sl2 : Slots), t2 p = none → unsetGlobal t2 sl2 p = (false, t2, sl2)) := by
  refine ⟨?_, ?_, ?_, ?_⟩
  · have hset : setGlobal t sl p v1 = (v1, updT t p (some 1), updS sl p (some v1)) := by
      simp [setGlobal, h]
    have hrec := installChain_held vs (updT t p (some 1)) (updS sl p (some v1)) p 1 v1
      (updT_apply_same t p _) (updS_apply_same sl p _)
    simp only [installChain, hset, hrec, updT_collapse]
    have hc : (1 : Int) + (vs.length : Int) = (vs.length : Int) + 1 := by ring
    rw [hc]
    simp [List.replicate_succ]
  · intro k hk
    have := removeChain_while_held k (updT t p (some ((vs.length : Int) + 1)))
      (updS sl p (some v1)) p vs.length (updT_apply_same t p _) hk
    rw [this, updT_collapse]
  · have := removeChain_drain vs.length (updT t p (some ((vs.length : Int) + 1)))
      (updS sl p (some v1)) p (updT_apply_same t p _)
    rw [this, updT_collapse, updS_collapse]
  · intro t2 sl2 h2
    simp [unsetGlobal, h2]

/-- C2 witness: the chain of two nested installs of the name window followed by
two removals, starting from empty tables, behaves as the claim states. -/
theorem global_overlay_refcount_check :
    installChain (fun _ => none) (fun _ => none) "window" (JsVal.box 1 :: [JsVal.box 2]) =
      (List.replicate ([JsVal.box 2].length + 1) (JsVal.box 1),
        updT (fun _ => none) "window" (some (([JsVal.box 2].length : Int) + 1)),
        updS (fun _ => none) "window" (some (JsVal.box 1)))
    ∧ removeChain
        (updT (fun _ => none) "window" (some (([JsVal.box 2].length : Int) + 1)))
        (updS (fun _ => none) "window" (some (JsVal.box 1))) "window"
        ([JsVal.box 2].length + 1) =
        (List.replicate [JsVal.box 2].length false ++ [true],
          updT (fun _ => none) "window" none, updS (fun _ => none) "window" none) := by
  have h := global_overlay_refcount (fun _ => none) (fun _ => none) "window"
    (JsVal.box 1) [JsVal.box 2] rfl
  exact ⟨h.1, h.2.2.1⟩

lemma setGlobal_tbl_other (t : Tbl) (sl : Slots) (p : String) (v : JsVal) (q : String)
    (h : q ≠ p) : (setGlobal t sl p v).2.1 q = t q := by
  cases ht : t p <;> simp [setGlobal, ht, updT_apply_other, h]

lemma unsetGlobal_tbl_other (t : Tbl) (sl : Slots) (p : String) (q : String)
    (h : q ≠ p) : (unsetGlobal t sl p).2.1 q = t q := by
  cases ht : t p with
  | none => simp [unsetGlobal, ht]
  | some n =>
    by_cases hz : n - 1 = 0 <;> simp [unsetGlobal, ht, hz, updT_apply_other, h]

/-- Installing a binding list over a name that is already counted only raises
the count by the number of bindings for that name. -/
lemma installAll_tbl_held :
    ∀ (bs : List (String × JsVal)) (t : Tbl) (sl : Slots) (q : String) (k : Int),
      t q = some k →
      (installAll bs t sl).1 q = some (k + (occCount q bs : Int)) := by
  intro bs
  induction bs with
  | nil =>
    intro t sl q k ht
    simp [installAll, occCount, ht]
  | cons b bs ih =>
    intro t sl q k ht
    by_cases hb : b.1 = q
    · have hset : (setGlobal t sl b.1 b.2).2.1 q = some (k + 1) := by
        rw [hb]
        simp [setGlobal, ht, updT_apply_same]
      have := ih (setGlobal t sl b.1 b.2).2.1 (setGlobal t sl b.1 b.2).2.2 q (k + 1) hset
      rw [installAll, this]
      simp only [occCount, hb, if_pos]
      congr 1
      push_cast
      ring
    · have hset : (setGlobal t sl b.1 b.2).2.1 q = some k := by
        rw [setGlobal_tbl_other t sl b.1 b.2 q (fun he => hb he.symm), ht]
      have := ih (setGlobal t sl b.1 b.2).2.1 (setGlobal t sl b.1 b.2).2.2 q k hset
      rw [installAll, this]
      simp [occCount, hb]

/-- Installing a binding list that never mentions an uncounted name leaves that
name uncounted. -/
lemma installAll_tbl_absent :
    ∀ (bs : List (String × JsVal)) (t : Tbl) (sl : Slots) (q : String),
      t q = none → occCount q bs = 0 →
      (installAll bs t sl).1 q = none := by
  intro bs
  induction bs with
  | nil =>
    intro t sl q ht _
    simpa [installAll] using ht
  | cons b bs ih =>
    intro t sl q ht hocc
    by_cases hb : b.1 = q
    · simp [occCount, hb] at hocc
    · have hset : (setGlobal t sl b.1 b.2).2.1 q = none := by
        rw [setGlobal_tbl_other t sl b.1 b.2 q (fun he => hb he.symm), ht]
      have hocc2 : occCount q bs = 0 := by
        simpa [occCount, hb] using hocc
      rw [installAll]
      exact ih _ _ q hset hocc2

/-- Installing a binding list over an uncounted name that it does mention
creates a count equal to the number of bindings for that name. -/
lemma installAll_tbl_fresh :
    ∀ (bs : List (String × JsVal)) (t : Tbl) (sl : Slots) (q : String),
      t q = none → 0 < occCount q bs →
      (installAll bs t sl).1 q = some ((occCount q bs : Int)) := by
  intro bs
  induction bs with
  | nil =>
    intro t sl q _ hocc
    simp [occCount] at hocc
  | cons b bs ih =>
    intro t sl q ht hocc
    by_cases hb : b.1 = q
    · have hset : (setGlobal t sl b.1 b.2).2.1 q = some 1 := by
        rw [hb]
        simp [setGlobal, ht, updT_apply_same]
      have := installAll_tbl_held bs (setGlobal t sl b.1 b.2).2.1
        (setGlobal t sl b.1 b.2).2.2 q 1 hset
      rw [installAll, this]
      have hc : (1 : Int) + (occCount q bs : Int) = ((occCount q (b :: bs) : Nat) : Int) := by
        simp only [occCount, hb, if_pos]
        push_cast
        ring
      rw [hc]
    · have hset : (setGlobal t sl b.1 b.2).2.1 q = none := by
        rw [setGlobal_tbl_other t sl b.1 b.2 q (fun he => hb he.symm), ht]
      have hocc2 : 0 < occCount q bs := by
        simpa [occCount, hb] using hocc
      have := ih (setGlobal t sl b.1 b.2).2.1 (setGlobal t sl b.1 b.2).2.2 q hset hocc2
      rw [installAll, this]
      simp [occCount, hb]

/-- Removing a binding list from a name with no outstanding count leaves it
without one: each unset of that name is a no-op. -/
lemma removeAll_tbl_absent :
    ∀ (bs : List (String × JsVal)) (t : Tbl) (sl : Slots) (q : String),
      t q = none → (removeAll bs t sl).1 q = none := by
  intro bs
  induction bs with
  | nil =>
    intro t sl q ht
    simpa [removeAll] using ht
  | cons b bs ih =>
    intro t sl q ht
    by_cases hb : b.1 = q
    · have hun : (unsetGlobal t sl b.1).2.1 q = none := by
        rw [hb]
        simp [unsetGlobal, ht]
      rw [removeAll]
      exact ih _ _ q hun
    · have hun : (unsetGlobal t sl b.1).2.1 q = none := by
        rw [unsetGlobal_tbl_other t sl b.1 q (fun he => hb he.symm), ht]
      rw [removeAll]
      exact ih _ _ q hun

/-- Removing a binding list from a name whose count strictly exceeds the number
of bindings for it just lowers the count by that number. -/
lemma removeAll_tbl_surplus :
    ∀ (bs : List (String × JsVal)) (t : Tbl) (sl : Slots) (q : String) (n : Int),
      t q = some n → (occCount q bs : Int) < n →
      (removeAll bs t sl).1 q = some (n - (occCount q bs : Int)) := by
  intro bs
  induction bs with
  | nil =>
    intro t sl q n ht _
    simp [removeAll, occCount, ht]
  | cons b bs ih =>
    intro t sl q n ht hlt
    by_cases hb : b.1 = q
    · have hocc : (occCount q (b :: bs) : Int) = (occCount q bs : Int) + 1 := by
        simp only [occCount, hb, if_pos]
        push_cast
        ring
      have hn1 : ¬ (n - 1 = 0) := by
        rw [hocc] at hlt
        have : (0 : Int) ≤ (occCount q bs : Int) := Int.ofNat_nonneg _
        omega
      have hun : (unsetGlobal t sl b.1).2.1 q = some (n - 1) := by
        rw [hb]
        simp only [unsetGlobal, ht]
        rw [if_neg hn1]
        exact updT_apply_same t q _
      have hlt2 : (occCount q bs : Int) < n - 1 := by
        rw [hocc] at hlt
        omega
      have := ih (unsetGlobal t sl b.1).2.1 (unsetGlobal t sl b.1).2.2 q (n - 1) hun hlt2
      rw [removeAll, this, hocc]
      congr 1
      ring
    · have hun : (unsetGlobal t sl b.1).2.1 q = some n := by
        rw [unsetGlobal_tbl_other t sl b.1 q (fun he => hb he.symm), ht]
      have hocc : occCount q (b :: bs) = occCount q bs := by
        simp [occCount, hb]
      have hlt2 : (occCount q bs : Int) < n := by
        rw [hocc] at hlt
        exact hlt
      have := ih (unsetGlobal t sl b.1).2.1 (unsetGlobal t sl b.1).2.2 q n hun hlt2
      rw [removeAll, this, hocc]

/-- Removing a binding list from a name whose count equals the (positive) number
of bindings for it deletes the entry. -/
lemma removeAll_tbl_drain :
    ∀ (bs : List (String × JsVal)) (t : Tbl) (sl : Slots) (q : String),
      t q = some ((occCount q bs : Int)) → 1 ≤ occCount q bs →
      (removeAll bs t sl).1 q = none := by
  intro bs
  induction bs with
  | nil =>
    intro t sl q _ hocc
    simp [occCount] at hocc
  | cons b bs ih =>
    intro t sl q ht hocc1
    by_cases hb : b.1 = q
    · have hocc : (occCount q (b :: bs) : Int) = (occCount q bs : Int) + 1 := by
        simp only [occCount, hb, if_pos]
        push_cast
        ring
      rw [hocc] at ht
      by_cases h0 : occCount q bs = 0
      · have hz : ((occCount q bs : Int) + 1) - 1 = 0 := by
          rw [h0]
          norm_num
        have hun : (unsetGlobal t sl b.1).2.1 q = none := by
          rw [hb]
          simp only [unsetGlobal, ht]
          rw [if_pos hz]
          exact updT_apply_same t q _
        rw [removeAll]
        exact removeAll_tbl_absent bs _ _ q hun
      · have hn1 : ¬ (((occCount q bs : Int) + 1) - 1 = 0) := by
          have : 1 ≤ occCount q bs := Nat.one_le_iff_ne_zero.mpr h0
          have : (1 : Int) ≤ (occCount q bs : Int) := by exact_mod_cast this
          omega
        have hun : (unsetGlobal t sl b.1).2.1 q = some ((occCount q bs : Int)) := by
          rw [hb]
          simp only [unsetGlobal, ht]
          have hr : ((occCount q bs : Int)) + 1 - 1 = ((occCount q bs : Int)) := by ring
          rw [if_neg hn1, hr]
          exact updT_apply_same t q _
        rw [removeAll]
        exact ih _ _ q hun (Nat.one_le_iff_ne_zero.mpr h0)
    · have hocc : occCount q (b :: bs) = occCount q bs := by
        simp [occCount, hb]
      rw [hocc] at ht
      have hun : (unsetGlobal t sl b.1).2.1 q = some ((occCount q bs : Int)) := by
        rw [unsetGlobal_tbl_other t sl b.1 q (fun he => hb he.symm), ht]
      have h0 : 1 ≤ occCount q bs := by
        rw [hocc] at hocc1
        exact hocc1
      rw [removeAll]
      exact ih _ _ q hun h0

/-- Installing every binding of a list and then removing every binding of the
same list restores the count table pointwise, provided all existing counts are
at least one (which every state built by the code satisfies). -/
lemma counts_restored (bs : List (String × JsVal)) (t : Tbl) (sl : Slots) (q : String)
    (hwf : ∀ n, t q = some n → 1 ≤ n) :
    (removeAll bs (installAll bs t sl).1 (installAll bs t sl).2).1 q = t q := by
  cases ht : t q with
  | none =>
    by_cases h0 : occCount q bs = 0
    · have hi := installAll_tbl_absent bs t sl q ht h0
      rw [removeAll_tbl_absent bs _ _ q hi]
    · have hpos : 0 < occCount q bs := Nat.pos_of_ne_zero h0
      have hi := installAll_tbl_fresh bs t sl q ht hpos
      rw [removeAll_tbl_drain bs _ _ q hi (Nat.one_le_iff_ne_zero.mpr h0)]
  | some k =>
    have hk : 1 ≤ k := hwf k ht
    have hi := installAll_tbl_held bs t sl q k ht
    have hlt : (occCount q bs : Int) < k + (occCount q bs : Int) := by omega
    rw [removeAll_tbl_surplus bs _ _ q (k + (occCount q bs : Int)) hi hlt]
    congr 1
    ring

/-- C3 counterexample: a wrapped method that throws leaves the binding
installed.  With the single binding window and a method that raises, the
wrapped call propagates the error, the count table still holds window with
count 1 and the global slot is still overridden: the install performed by the
wrapper was not matched by a remove, contrary to the claim that removal happens
even when the wrapped function raises (the body of _exposeGlobals has no
try/finally). -/
theorem expose_globals_exception_leak :
    ((exposeGlobalsWrapped (fun _ _ t2 sl2 => (t2, sl2, some (), JsVal.undefined))
        [("window", JsVal.box 0)]) JsVal.undefined [] (fun _ => none) (fun _ => none)).1
        "window" = some 1
    ∧ ((exposeGlobalsWrapped (fun _ _ t2 sl2 => (t2, sl2, some (), JsVal.undefined))
        [("window", JsVal.box 0)]) JsVal.undefined [] (fun _ => none) (fun _ => none)).2.1
        "window" = some (JsVal.box 0)
    ∧ ((exposeGlobalsWrapped (fun _ _ t2 sl2 => (t2, sl2, some (), JsVal.undefined))
        [("window", JsVal.box 0)]) JsVal.undefined [] (fun _ => none) (fun _ => none)).2.2.1
        = some () := by
  exact ⟨rfl, rfl, rfl⟩

/-- C3 amended: the wrapper produced by _exposeGlobals installs all bindings,
invokes the function, and removes all bindings when the function returns
normally, so that every install is then matched by a remove and the count table
is restored pointwise; when the function raises, the exception propagates and
the removals are skipped, leaving the state produced by the install loop. -/
theorem expose_globals_scoped (bs : List (String × JsVal)) (t : Tbl) (sl : Slots)
    (hwf : ∀ q n, t q = some n → 1 ≤ n) :
    (∀ method,
      (∀ th ar t2 sl2, method th ar t2 sl2 = (t2, sl2, none, JsVal.undefined)) →
      ∀ q,
        ((exposeGlobalsWrapped method bs) JsVal.undefined [] t sl).1 q = t q
        ∧ ((exposeGlobalsWrapped method bs) JsVal.undefined [] t sl).2.2.1 = none)
    ∧ (∀ e : Unit,
        (exposeGlobalsWrapped (fun _ _ t2 sl2 => (t2, sl2, some e, JsVal.undefined)) bs)
            JsVal.undefined [] t sl =
          ((installAll bs t sl).1, (installAll bs t sl).2, some e, JsVal.undefined)) := by
  constructor
  · intro method hm q
    constructor
    · show (exposeGlobalsWrapped method bs JsVal.undefined [] t sl).1 q = t q
      simp only [exposeGlobalsWrapped, hm]
      exact counts_restored bs t sl q (hwf q)
    · simp only [exposeGlobalsWrapped, hm]
  · intro e
    rfl

/-- C3 witness: the amended statement at the single binding window, an empty
initial state and a method that returns normally. -/
theorem expose_globals_scoped_check :
    ((exposeGlobalsWrapped (fun _ _ t2 sl2 => (t2, sl2, none, JsVal.undefined))
        [("window", JsVal.box 3)]) JsVal.undefined [] (fun _ => none) (fun _ => none)).1
        "window" = none
    ∧ ((exposeGlobalsWrapped (fun _ _ t2 sl2 => (t2, sl2, none, JsVal.undefined))
        [("window", JsVal.box 3)]) JsVal.undefined [] (fun _ => none) (fun _ => none)).2.2.1
        = none :=
  (expose_globals_scoped [("window", JsVal.box 3)] (fun _ => none) (fun _ => none)
      (fun q n h => by simp at h)).1
    (fun _ _ t2 sl2 => (t2, sl2, none, JsVal.undefined)) (fun _ _ _ _ => rfl) "window"

/-- C10: the wrapper produced by _exposeGlobals forwards the this value and the
argument list verbatim to the wrapped method (the method is applied exactly to
them, on the state with all bindings installed), and when the method returns
normally its result value r is discarded: the wrapper returns undefined. -/
theorem expose_globals_returns_undefined
    (method : JsVal → List JsVal → Tbl → Slots → Tbl × Slots × Option Unit × JsVal)
    (bs : List (String × JsVal)) (thisV : JsVal) (args : List JsVal) (t : Tbl) (sl : Slots)
    (t2 : Tbl) (sl2 : Slots) (r : JsVal)
    (hm : method thisV args (installAll bs t sl).1 (installAll bs t sl).2 = (t2, sl2, none, r)) :
    (exposeGlobalsWrapped method bs) thisV args t sl =
      ((removeAll bs t2 sl2).1, (removeAll bs t2 sl2).2, none, JsVal.undefined) := by
  simp only [exposeGlobalsWrapped, hm]

/-- C10 witness: a method whose own result value is box 5; the wrapper still
returns undefined. -/
theorem expose_globals_returns_undefined_check :
    (exposeGlobalsWrapped (fun _ _ t2 sl2 => (t2, sl2, none, JsVal.box 5)) [])
        (JsVal.box 7) [JsVal.box 8] (fun _ => none) (fun _ => none) =
      ((removeAll [] (fun _ => none) (fun _ => none)).1,
        (removeAll [] (fun _ => none) (fun _ => none)).2, none, JsVal.undefined) :=
  expose_globals_returns_undefined (fun _ _ t2 sl2 => (t2, sl2, none, JsVal.box 5)) []
    (JsVal.box 7) [JsVal.box 8] (fun _ => none) (fun _ => none)
    (fun _ => none) (fun _ => none) (JsVal.box 5) rfl

/-- C5 counterexample: the count table is closure-local to each _initRequireJS
call, not process-wide.  Instance A (table tA) is mid-initialization and has
installed window with its own table; instance B, already initialized, then runs
one of its wrapped history methods, which installs and removes window through
B's own separate (empty) table while sharing the same global slots.  B's
install overwrites the slot (its table has no entry, so first-writer-wins does
not protect A's value across tables) and B's remove deletes the slot outright.
Afterwards window is still a key of A's table with count 1 while the global
slot no longer exists, refuting the claimed invariant that a name is a key of
the (alleged single shared) counts table iff the slot is currently
overridden. -/
theorem overlay_table_not_shared :
    ((setGlobal (fun _ => none) (fun _ => none) "window" (JsVal.box 10)).2.1 "window" = some 1)
    ∧ ((installAll [("window", JsVal.box 20)] (fun _ => none)
        (setGlobal (fun _ => none) (fun _ => none) "window" (JsVal.box 10)).2.2).2 "window"
        = some (JsVal.box 20))
    ∧ (((exposeGlobalsWrapped (fun _ _ t2 sl2 => (t2, sl2, none, JsVal.undefined))
          [("window", JsVal.box 20)]) JsVal.undefined [] (fun _ => none)
          (setGlobal (fun _ => none) (fun _ => none) "window" (JsVal.box 10)).2.2).2.1
          "window" = none) := by
  exact ⟨rfl, rfl, rfl⟩

/-- C5 amended: each call to _initRequireJS has its own closure-local counts
table while the global slots are process-wide; for one instance operating
through its own table, the invariant does hold: starting from the empty table
and empty overlay-managed slots, every _setGlobal and _unsetGlobal preserves
the property that a name is a key of that table iff the corresponding slot is
present. -/
theorem overlay_table_invariant_local (t : Tbl) (sl : Slots) (p : String) (v : JsVal)
    (h : overlayInv t sl) :
    overlayInv (setGlobal t sl p v).2.1 (setGlobal t sl p v).2.2
    ∧ overlayInv (unsetGlobal t sl p).2.1 (unsetGlobal t sl p).2.2
    ∧ overlayInv (fun _ => none) (fun _ => none) := by
  refine ⟨?_, ?_, fun q => rfl⟩
  · intro q
    cases ht : t p with
    | some n =>
      by_cases hq : q = p
      · subst hq
        simp only [setGlobal, ht]
        rw [updT_apply_same]
        have := h q
        rw [ht] at this
        simp at this
        simp [this]
      · simp only [setGlobal, ht]
        rw [updT_apply_other _ _ _ _ hq]
        exact h q
    | none =>
      by_cases hq : q = p
      · subst hq
        simp only [setGlobal, ht]
        rw [updT_apply_same, updS_apply_same]
        rfl
      · simp only [setGlobal, ht]
        rw [updT_apply_other _ _ _ _ hq, updS_apply_other _ _ _ _ hq]
        exact h q
  · intro q
    cases ht : t p with
    | none => simp only [unsetGlobal, ht]; exact h q
    | some n =>
      by_cases hz : n - 1 = 0
      · simp only [unsetGlobal, ht]
        rw [if_pos hz]
        by_cases hq : q = p
        · subst hq
          show (updT t q none q).isSome = (updS sl q none q).isSome
          rw [updT_apply_same, updS_apply_same]
          rfl
        · show (updT t p none q).isSome = (updS sl p none q).isSome
          rw [updT_apply_other _ _ _ _ hq, updS_apply_other _ _ _ _ hq]
          exact h q
      · simp only [unsetGlobal, ht]
        rw [if_neg hz]
        by_cases hq : q = p
        · subst hq
          show (updT t q (some (n - 1)) q).isSome = (sl q).isSome
          rw [updT_apply_same]
          have := h q
          rw [ht] at this
          simp at this
          simp [this]
        · show (updT t p (some (n - 1)) q).isSome = (sl q).isSome
          rw [updT_apply_other _ _ _ _ hq]
          exact h q

/-- C5 witness: the amended invariant preservation applied to the empty table
and empty slots at the name window. -/
theorem overlay_table_invariant_local_check :
    overlayInv (setGlobal (fun _ => none) (fun _ => none) "window" (JsVal.box 1)).2.1
      (setGlobal (fun _ => none) (fun _ => none) "window" (JsVal.box 1)).2.2
    ∧ overlayInv (unsetGlobal (fun _ => none) (fun _ => none) "window").2.1
      (unsetGlobal (fun _ => none) (fun _ => none) "window").2.2 :=
  ⟨(overlay_table_invariant_local (fun _ => none) (fun _ => none) "window" (JsVal.box 1)
      (fun _ => rfl)).1,
    (overlay_table_invariant_local (fun _ => none) (fun _ => none) "window" (JsVal.box 1)
      (fun _ => rfl)).2.1⟩

lemma runS_append (s : SState) (a b : List SEvent) :
    runS s (a ++ b) = runS (runS s a) b := by
  simp [runS, List.foldl_append]

lemma runS_cons (s : SState) (e : SEvent) (es : List SEvent) :
    runS s (e :: es) = runS (stepS s e) es := rfl

lemma initApp_busy (s : SState) (i : Nat) (h : s.initialising = true) :
    initApp s i = { s with initQueue := s.initQueue ++ [i] } := by
  simp [initApp, h]

/-- Requests arriving while some pipeline is active are only appended, in
arrival order, to the queue. -/
lemma runS_inits_busy (is : List Nat) :
    ∀ s : SState, s.initialising = true →
      runS s (is.map SEvent.initReq) = { s with initQueue := s.initQueue ++ is } := by
  induction is with
  | nil => intro s _; simp [runS]
  | cons i is ih =>
    intro s h
    rw [List.map_cons, runS_cons]
    have hstep : stepS s (SEvent.initReq i) = { s with initQueue := s.initQueue ++ [i] } := by
      simp [stepS, initApp_busy s i h]
    rw [hstep, ih { s with initQueue := s.initQueue ++ [i] } h]
    simp

/-- From idle, a burst of init requests starts the first instance immediately
and queues the rest in order. -/
lemma runS_inits_from_idle (i : Nat) (is : List Nat) :
    runS init0 ((i :: is).map SEvent.initReq) = ⟨true, is, some i, [i], []⟩ := by
  rw [List.map_cons, runS_cons]
  have hstep : stepS init0 (SEvent.initReq i) = ⟨true, [], some i, [i], []⟩ := by
    simp [stepS, initApp, init0]
  rw [hstep, runS_inits_busy is ⟨true, [], some i, [i], []⟩ rfl]
  simp

lemma handle_emptyq (i : Nat) (st c : List Nat) :
    handleAppInitialised ⟨true, [], some i, st, c⟩ = ⟨false, [], none, st, c ++ [i]⟩ := rfl

lemma handle_shift (i j : Nat) (rest st c : List Nat) :
    handleAppInitialised ⟨true, j :: rest, some i, st, c⟩ =
      ⟨true, rest, some j, st ++ [j], c ++ [i]⟩ := rfl

/-- Draining a busy state whose queue holds q by q.length + 1 completion
events: the pipelines start and complete in exactly queue order. -/
lemma runS_drain (q : List Nat) :
    ∀ (i : Nat) (st c : List Nat),
      runS ⟨true, q, some i, st, c⟩ (List.replicate (q.length + 1) SEvent.pipelineDone) =
        ⟨false, [], none, st ++ q, c ++ i :: q⟩ := by
  induction q with
  | nil =>
    intro i st c
    show runS ⟨true, [], some i, st, c⟩ [SEvent.pipelineDone] = _
    rw [runS_cons]
    show handleAppInitialised ⟨true, [], some i, st, c⟩ = _
    rw [handle_emptyq]
    simp
  | cons j rest ih =>
    intro i st c
    have hrep : List.replicate ((j :: rest).length + 1) SEvent.pipelineDone =
        SEvent.pipelineDone :: List.replicate (rest.length + 1) SEvent.pipelineDone := by
      simp [List.replicate_succ]
    rw [hrep, runS_cons]
    show runS (handleAppInitialised ⟨true, j :: rest, some i, st, c⟩) _ = _
    rw [handle_shift, ih j (st ++ [j]) (c ++ [i])]
    simp

/-- The reachable-state invariant of the serializer: the busy flag tracks
whether a pipeline is active, the queue is empty when idle, and the started
log is the completed log plus at most the one active instance. -/
def SInv (s : SState) : Prop :=
  match s.active with
  | none => s.initialising = false ∧ s.initQueue = [] ∧ s.started = s.completed
  | some i => s.initialising = true ∧ s.started = s.completed ++ [i]

lemma SInv_init0 : SInv init0 := by
  exact ⟨rfl, rfl, rfl⟩

lemma SInv_step (s : SState) (e : SEvent) (h : SInv s) : SInv (stepS s e) := by
  obtain ⟨b, q, a, st, c⟩ := s
  cases e with
  | initReq i =>
    cases a with
    | none =>
      obtain ⟨hb, hq, hst⟩ := h
      subst hb hq
      simp at hst
      simp only [stepS, initApp]
      simp [SInv, hst]
    | some j =>
      obtain ⟨hb, hst⟩ := h
      subst hb
      simp at hst
      simp only [stepS, initApp]
      simp [SInv, hst]
  | pipelineDone =>
    cases a with
    | none =>
      simpa [stepS, handleAppInitialised] using h
    | some i =>
      obtain ⟨hb, hst⟩ := h
      subst hb
      simp at hst
      cases q with
      | nil =>
        simp only [stepS]
        rw [handle_emptyq]
        simp [SInv, hst]
      | cons j rest =>
        simp only [stepS]
        rw [handle_shift]
        simp [SInv, hst]

lemma SInv_runS (es : List SEvent) :
    ∀ s : SState, SInv s → SInv (runS s es) := by
  induction es with
  | nil => intro s h; exact h
  | cons e es ih =>
    intro s h
    rw [runS_cons]
    exact ih (stepS s e) (SInv_step s e h)

/-- C1: under any sequence of events, at most one instance is ever
mid-initialization (the started log never exceeds the completed log by more
than one); a burst of init requests arriving before any completion starts the
first instance and appends all the others to the queue in arrival order; and
when the queued pipelines then complete, the completion callbacks fire in
exactly the arrival (FIFO) order. -/
theorem init_serializer_fifo :
    (∀ es : List SEvent,
      (runS init0 es).started.length ≤ (runS init0 es).completed.length + 1)
    ∧ (∀ is : List Nat,
        (runS init0 (is.map SEvent.initReq)).initQueue = is.drop 1)
    ∧ (∀ is : List Nat,
        (runS init0 (is.map SEvent.initReq ++
          List.replicate is.length SEvent.pipelineDone)).completed = is) := by
  refine ⟨?_, ?_, ?_⟩
  · intro es
    have h := SInv_runS es init0 SInv_init0
    revert h
    unfold SInv
    cases (runS init0 es).active with
    | none =>
      intro h
      rw [h.2.2]
      omega
    | some i =>
      intro h
      rw [h.2]
      simp
  · intro is
    cases is with
    | nil => rfl
    | cons i is =>
      rw [runS_inits_from_idle]
      rfl
  · intro is
    cases is with
    | nil => rfl
    | cons i is =>
      rw [runS_append, runS_inits_from_idle]
      have hlen : (i :: is).length = is.length + 1 := rfl
      rw [hlen, runS_drain is i [i] []]
      rfl

/-- C4 counterexample: two instances request init back to back; the first has a
source with no config call, the second a well-formed one.  The first pipeline
throws the Invalid-config error inside the fs.readFile callback (conjunct 1),
so _handleAppInitialised never runs: the serializer never observes a completion
for the first instance, and the second instance, although its source is fine
(conjunct 2), stays queued forever.  The final state has an empty completed
log and instance 1 still in the queue with the busy flag set, refuting both
the complete-exactly-once and the second-instance-still-completes parts of the
claim. -/
theorem malformed_config_stalls_queue_example :
    getConfigObject stubEval ("no config here".toList) ("a/b.js".toList) none =
      Except.error ()
    ∧ configOk stubEval ("require.config(\x7ba:1\x7d)".toList) ("a/b.js".toList) none = true
    ∧ runSystem stubEval ("a/b.js".toList) none
        ["no config here".toList, "require.config(\x7ba:1\x7d)".toList] =
        ⟨true, [1], some 0, [0], []⟩ := by
  exact ⟨rfl, rfl, rfl⟩

/-- C4 amended: a first instance whose configuration source has no recognizable
config call makes init throw the ConfigFormatError-equivalent from within the
read callback; the serializer never observes a completion for it, and every
instance queued behind it never starts: the queue is stalled with the busy flag
still set, the failing instance still active and nothing completed. -/
theorem malformed_config_stalls_queue (evalObj : List Char → Option Config)
    (normPath : List Char) (ctx : Option String) (bad : List Char)
    (rest : List (List Char))
    (h : configOk evalObj bad normPath ctx = false) :
    runSystem evalObj normPath ctx (bad :: rest) =
      ⟨true, (List.range rest.length).map (· + 1), some 0, [0], []⟩ := by
  unfold runSystem
  have htw : (bad :: rest).takeWhile (fun d => configOk evalObj d normPath ctx) = [] := by
    simp [List.takeWhile, h]
  rw [htw]
  simp only [List.length_nil, List.replicate_zero, List.append_nil]
  have hrange : List.range (bad :: rest).length = 0 :: (List.range rest.length).map (· + 1) := by
    rw [List.length_cons, List.range_succ_eq_map]
  rw [hrange, runS_inits_from_idle]

/-- C4 witness: the amended statement at an empty configuration source (which
has no config call) and one queued healthy instance. -/
theorem malformed_config_stalls_queue_check :
    runSystem (fun _ => none) [] none [[], "x".toList] =
      ⟨true, (List.range 1).map (· + 1), some 0, [0], []⟩ :=
  malformed_config_stalls_queue (fun _ => none) [] none [] ["x".toList] rfl

lemma getFields_setFields_same (fs : List (String × CVal)) (k : String) (v : CVal) :
    getFields (setFields fs k v) k = some v := by
  induction fs with
  | nil => simp [setFields, getFields]
  | cons f fs ih =>
    by_cases h : f.1 = k
    · simp [setFields, getFields, h]
    · simp [setFields, getFields, h, ih]

lemma getFields_setFields_other (fs : List (String × CVal)) (k k2 : String) (v : CVal)
    (h : k2 ≠ k) : getFields (setFields fs k v) k2 = getFields fs k2 := by
  have h2 : ¬ (k = k2) := fun hc => h hc.symm
  induction fs with
  | nil => simp [setFields, getFields, h2]
  | cons f fs ih =>
    by_cases hf : f.1 = k
    · have hf2 : ¬ (f.1 = k2) := by
        rw [hf]
        exact h2
      simp [setFields, getFields, hf, hf2, h2]
    · simp [setFields, getFields, hf, ih]

lemma getFields_delFields_same (fs : List (String × CVal)) (k : String) :
    getFields (delFields fs k) k = none := by
  induction fs with
  | nil => simp [delFields, getFields]
  | cons f fs ih =>
    by_cases h : f.1 = k
    · simp [delFields, h, ih]
    · simp [delFields, getFields, h, ih]

lemma getFields_delFields_other (fs : List (String × CVal)) (k k2 : String)
    (h : k2 ≠ k) : getFields (delFields fs k) k2 = getFields fs k2 := by
  have h2 : ¬ (k = k2) := fun hc => h hc.symm
  induction fs with
  | nil => simp [delFields]
  | cons f fs ih =>
    by_cases hf : f.1 = k
    · have hf2 : ¬ (f.1 = k2) := by
        rw [hf]
        exact h2
      simp [delFields, getFields, hf, hf2, h2, ih]
    · simp [delFields, getFields, hf, ih]

lemma getField_setField_same (c : Config) (k : String) (v : CVal) :
    getField (setField c k v) k = some v :=
  getFields_setFields_same c.fields k v

lemma getField_setField_other (c : Config) (k k2 : String) (v : CVal) (h : k2 ≠ k) :
    getField (setField c k v) k2 = getField c k2 :=
  getFields_setFields_other c.fields k k2 v h

lemma getField_delField_same (c : Config) (k : String) :
    getField (delField c k) k = none :=
  getFields_delFields_same c.fields k

lemma getField_delField_other (c : Config) (k k2 : String) (h : k2 ≠ k) :
    getField (delField c k) k2 = getField c k2 :=
  getFields_delFields_other c.fields k k2 h

/-- C6: whenever the extraction step captures a literal and the evaluator turns
it into a config object with a deps field, the patching pipeline succeeds and
returns a config with no deps field, a root-dependency sequence equal to the
literal deps value, and a baseUrl overwritten with the directory portion of the
supplied config path (everything up to and including the last slash),
regardless of any baseUrl the literal itself carried. -/
theorem config_patch_roundtrip (evalObj : List Char → Option Config)
    (data path : List Char) (ctx : Option String) (cap : List Char) (cfg : Config)
    (ds : List String)
    (h1 : configSearch data = some cap) (h2 : evalObj cap = some cfg)
    (h3 : getField cfg "deps" = some (CVal.strs ds)) :
    ∃ out : Config × Option CVal,
      patchAndSplit evalObj data path ctx = Except.ok out
      ∧ getField out.1 "deps" = none
      ∧ out.2 = some (CVal.strs ds)
      ∧ getField out.1 "baseUrl" = some (CVal.str (String.mk (dirOf path))) := by
  cases ctx with
  | none =>
    have hdeps : getField (setField (setField cfg "baseUrl"
        (CVal.str (String.mk (dirOf path)))) "nodeRequire" CVal.hostRequire) "deps" =
        some (CVal.strs ds) := by
      rw [getField_setField_other _ _ _ _ (by decide),
        getField_setField_other _ _ _ _ (by decide), h3]
    refine ⟨(delField (setField (setField cfg "baseUrl"
        (CVal.str (String.mk (dirOf path)))) "nodeRequire" CVal.hostRequire) "deps",
        some (CVal.strs ds)), ?_, ?_, rfl, ?_⟩
    · simp only [patchAndSplit, getConfigObject, h1, h2, hdeps, jsTruthy]
      rfl
    · rw [getField_delField_same]
    · rw [getField_delField_other _ _ _ (by decide),
        getField_setField_other _ _ _ _ (by decide), getField_setField_same]
  | some c =>
    have hdeps : getField (setField (setField (setField cfg "baseUrl"
        (CVal.str (String.mk (dirOf path)))) "nodeRequire" CVal.hostRequire)
        "context" (CVal.str c)) "deps" = some (CVal.strs ds) := by
      rw [getField_setField_other _ _ _ _ (by decide),
        getField_setField_other _ _ _ _ (by decide),
        getField_setField_other _ _ _ _ (by decide), h3]
    refine ⟨(delField (setField (setField (setField cfg "baseUrl"
        (CVal.str (String.mk (dirOf path)))) "nodeRequire" CVal.hostRequire)
        "context" (CVal.str c)) "deps", some (CVal.strs ds)), ?_, ?_, rfl, ?_⟩
    · simp only [patchAndSplit, getConfigObject, h1, h2, hdeps, jsTruthy]
      rfl
    · rw [getField_delField_same]
    · rw [getField_delField_other _ _ _ (by decide),
        getField_setField_other _ _ _ _ (by decide),
        getField_setField_other _ _ _ _ (by decide), getField_setField_same]

/-- C6 witness: the round trip at the configuration source
require.config(with baseUrl x and deps app) and the config path
assets/config.js, whose directory portion is assets followed by a slash. -/
theorem config_patch_roundtrip_check :
    ∃ out : Config × Option CVal,
      patchAndSplit evalEx
          ("require.config(\x7bbaseUrl:\x27x\x27, deps:[\x27app\x27]\x7d)".toList)
          ("assets/config.js".toList) none = Except.ok out
      ∧ getField out.1 "deps" = none
      ∧ out.2 = some (CVal.strs ["app"])
      ∧ getField out.1 "baseUrl" =
          some (CVal.str (String.mk (dirOf ("assets/config.js".toList)))) :=
  config_patch_roundtrip evalEx
    ("require.config(\x7bbaseUrl:\x27x\x27, deps:[\x27app\x27]\x7d)".toList)
    ("assets/config.js".toList) none
    ("\x7bbaseUrl:\x27x\x27, deps:[\x27app\x27]\x7d".toList)
    ⟨[("baseUrl", CVal.str "x"), ("deps", CVal.strs ["app"])]⟩ ["app"] rfl rfl rfl

lemma matchLit_append (lit : List Char) : ∀ r : List Char, matchLit lit (lit ++ r) = some r := by
  induction lit with
  | nil => intro r; rfl
  | cons l ls ih =>
    intro r
    simp only [List.cons_append, matchLit, if_pos rfl]
    exact ih r

lemma dropWhile_fix_of_head (c : Char) (r : List Char) (h : isJsSpace c = false) :
    List.dropWhile isJsSpace (c :: r) = c :: r := by
  simp [List.dropWhile, h]

lemma dropWhile_spaces_append (w : List Char) (r : List Char)
    (hw : ∀ c ∈ w, isJsSpace c = true) (hr : List.dropWhile isJsSpace r = r) :
    List.dropWhile isJsSpace (w ++ r) = r := by
  induction w with
  | nil => simpa using hr
  | cons a as ih =>
    have ha : isJsSpace a = true := hw a (List.mem_cons_self a as)
    simp only [List.cons_append, List.dropWhile, ha]
    exact ih (fun c hc => hw c (List.mem_cons_of_mem a hc))

lemma lastIdxOf_eq_none (c : Char) (l : List Char) (h : ∀ a ∈ l, ¬ (a = c)) :
    lastIdxOf c l = none := by
  induction l with
  | nil => rfl
  | cons a as ih =>
    simp only [lastIdxOf, ih (fun x hx => h x (List.mem_cons_of_mem a hx))]
    simp [h a (List.mem_cons_self a as)]

lemma lastIdxOf_concat (c : Char) (mid post : List Char) (h : ∀ a ∈ post, ¬ (a = c)) :
    lastIdxOf c (mid ++ c :: post) = some mid.length := by
  induction mid with
  | nil =>
    simp only [List.nil_append, lastIdxOf, lastIdxOf_eq_none c post h]
    simp
  | cons m ms ih =>
    simp only [List.cons_append, lastIdxOf, List.append_eq]
    rw [ih]
    simp

/-- Whenever the full regex matches at the very start of the input, configSearch
returns that capture (the scan stops at the first matching position). -/
lemma configSearch_of_tryConfigAt (src : List Char) (cap : List Char)
    (h : tryConfigAt src = some cap) : configSearch src = some cap := by
  cases src with
  | nil =>
    rw [show tryConfigAt ([] : List Char) = none from rfl] at h
    cases h
  | cons c cs =>
    simp only [configSearch, h]

/-- The head of the regex consumes require, optional spaces, a dot, optional
spaces, config, optional spaces and the opening parenthesis, leaving the
tail. -/
lemma matchHead_composed (w1 w2 w3 tail : List Char)
    (h1 : ∀ c ∈ w1, isJsSpace c = true) (h2 : ∀ c ∈ w2, isJsSpace c = true)
    (h3 : ∀ c ∈ w3, isJsSpace c = true) :
    matchHead ("require".toList ++ (w1 ++ ('.' :: (w2 ++ ("config".toList ++
      (w3 ++ ('(' :: tail))))))) = some tail := by
  have ha := matchLit_append ("require".toList)
    (w1 ++ ('.' :: (w2 ++ ("config".toList ++ (w3 ++ ('(' :: tail))))))
  have hfix1 : List.dropWhile isJsSpace
      ('.' :: (w2 ++ ("config".toList ++ (w3 ++ ('(' :: tail))))) =
      '.' :: (w2 ++ ("config".toList ++ (w3 ++ ('(' :: tail)))) :=
    dropWhile_fix_of_head '.' _ (by decide)
  have hb := dropWhile_spaces_append w1
    ('.' :: (w2 ++ ("config".toList ++ (w3 ++ ('(' :: tail))))) h1 hfix1
  have hc : matchLit ['.'] ('.' :: (w2 ++ ("config".toList ++ (w3 ++ ('(' :: tail))))) =
      some (w2 ++ ("config".toList ++ (w3 ++ ('(' :: tail)))) := by
    simp [matchLit]
  have hfix2 : List.dropWhile isJsSpace ("config".toList ++ (w3 ++ ('(' :: tail))) =
      "config".toList ++ (w3 ++ ('(' :: tail)) := by
    show List.dropWhile isJsSpace ('c' :: ("onfig".toList ++ (w3 ++ ('(' :: tail)))) =
      'c' :: ("onfig".toList ++ (w3 ++ ('(' :: tail)))
    exact dropWhile_fix_of_head 'c' _ (by decide)
  have hd := dropWhile_spaces_append w2 ("config".toList ++ (w3 ++ ('(' :: tail))) h2 hfix2
  have he := matchLit_append ("config".toList) (w3 ++ ('(' :: tail))
  have hfix3 : List.dropWhile isJsSpace ('(' :: tail) = '(' :: tail :=
    dropWhile_fix_of_head '(' _ (by decide)
  have hf := dropWhile_spaces_append w3 ('(' :: tail) h3 hfix3
  have hg : matchLit ['('] ('(' :: tail) = some tail := by
    simp [matchLit]
  simp only [matchHead, ha, hb, hc, hd, he, hf, hg]

/-- The whole regex at the start of the composed source: the greedy capture
ends at the final closing parenthesis, which is the explicitly supplied one
because the trailing text contains none. -/
lemma tryConfigAt_composed (w1 w2 w3 mid post : List Char)
    (h1 : ∀ c ∈ w1, isJsSpace c = true) (h2 : ∀ c ∈ w2, isJsSpace c = true)
    (h3 : ∀ c ∈ w3, isJsSpace c = true) (hmid : mid ≠ [])
    (hpost : ∀ c ∈ post, ¬ (c = ')')) :
    tryConfigAt ("require".toList ++ (w1 ++ ('.' :: (w2 ++ ("config".toList ++
      (w3 ++ ('(' :: (mid ++ ')' :: post)))))))) = some mid := by
  have hlen : 1 ≤ mid.length := by
    cases mid with
    | nil => exact absurd rfl hmid
    | cons a as => simp
  simp only [tryConfigAt, matchHead_composed w1 w2 w3 (mid ++ ')' :: post) h1 h2 h3,
    lastIdxOf_concat ')' mid post hpost, if_pos hlen]
  rw [List.take_left]

/-- If the literal require occurs nowhere in the source, the regex head can
match at no start position and the scan fails. -/
lemma configSearch_none (src : List Char)
    (h : ∀ i, i < src.length → matchLit ("require".toList) (src.drop i) = none) :
    configSearch src = none := by
  induction src with
  | nil => rfl
  | cons c cs ih =>
    have h0 : matchLit ("require".toList) (c :: cs) = none := by
      simpa using h 0 (by simp)
    have h0e : matchLit ['r', 'e', 'q', 'u', 'i', 'r', 'e'] (c :: cs) = none := h0
    have htry : tryConfigAt (c :: cs) = none := by
      simp [tryConfigAt, matchHead, h0, h0e]
    simp only [configSearch, htry]
    exact ih (fun i hi => by simpa using h (i + 1) (by simpa using Nat.succ_lt_succ hi))

/-- C7 counterexample: the extraction regex hard-codes the identifier require,
so a source using any other identifier (here foo.config) yields no capture at
all, although the claim promises success for every identifier; and the greedy
capture runs to the last closing parenthesis anywhere in the source, not to
the matching one: with trailing code after the call, the captured text is not
the object literal between the outermost matching parentheses. -/
theorem config_extraction_counterexample :
    configSearch ("foo.config(\x7ba:1\x7d)".toList) = none
    ∧ configSearch ("require.config(\x7ba:1\x7d); f(b)".toList) =
        some ("\x7ba:1\x7d); f(b".toList) := by
  exact ⟨rfl, rfl⟩

/-- C7 amended: extraction succeeds exactly for the fixed identifier require:
for every source of the form require, optional whitespace, a dot, optional
whitespace, config, optional whitespace, an opening parenthesis, a non-empty
literal text and a closing parenthesis followed by text with no further
closing parenthesis, the capture is the literal text between that parenthesis
pair (in general the capture extends to the last closing parenthesis in the
source); and when the literal require occurs nowhere in the source, extraction
fails and _getConfigObject throws the ConfigFormatError-equivalent. -/
theorem config_extraction_amended :
    (∀ w1 w2 w3 mid post : List Char,
      (∀ c ∈ w1, isJsSpace c = true) → (∀ c ∈ w2, isJsSpace c = true) →
      (∀ c ∈ w3, isJsSpace c = true) → mid ≠ [] → (∀ c ∈ post, ¬ (c = ')')) →
      configSearch ("require".toList ++ (w1 ++ ('.' :: (w2 ++ ("config".toList ++
        (w3 ++ ('(' :: (mid ++ ')' :: post)))))))) = some mid)
    ∧ (∀ src : List Char,
        (∀ i, i < src.length → matchLit ("require".toList) (src.drop i) = none) →
        configSearch src = none) := by
  constructor
  · intro w1 w2 w3 mid post h1 h2 h3 hmid hpost
    exact configSearch_of_tryConfigAt _ mid
      (tryConfigAt_composed w1 w2 w3 mid post h1 h2 h3 hmid hpost)
  · intro src h
    exact configSearch_none src h

/-- C7 witness: the amended statement at a source with one space before the
dot and the literal text between the parentheses, and at a source whose
identifier is foo (no occurrence of require). -/
theorem config_extraction_amended_check :
    configSearch ("require".toList ++ ([' '] ++ ('.' :: ([] ++ ("config".toList ++
      ([] ++ ('(' :: ("\x7ba:1\x7d".toList ++ ')' :: []))))))) ) = some ("\x7ba:1\x7d".toList)
    ∧ configSearch ("foo.config(x)".toList) = none :=
  ⟨config_extraction_amended.1 [' '] [] [] ("\x7ba:1\x7d".toList) []
      (by decide) (by simp) (by simp) (by decide) (by simp),
    config_extraction_amended.2 ("foo.config(x)".toList) (by decide)⟩

/-- C8 counterexample: self._requirejs is assigned on line 184, inside the
fs.readFile callback and before the jquery and backbone loads, so there is a
reachable point (here the jqueryLoaded stage) at which the init callback has
not yet fired and yet require does not throw: it forwards to the configured
loader and returns its result, contrary to the claim that any call before init
completes fails with the NotInitializedError-equivalent. -/
theorem require_midpipeline_counterexample :
    initCallbackFired Stage.jqueryLoaded = false
    ∧ requireCall (requirejsAt (fun l => JsVal.box l.length) Stage.jqueryLoaded)
        [JsVal.box 5] = Except.ok (JsVal.box 1) := by
  exact ⟨rfl, rfl⟩

/-- C8 amended: require throws the NotInitializedError-equivalent exactly while
this._requirejs is still null, that is, before the configuration step of the
pipeline assigns it (stages before loaderConfigured); from that assignment
onward, including at stages where the init callback has not yet fired, require
forwards its arguments verbatim to the configured loader and returns the
loader's result. -/
theorem require_loader_gate (loader : List JsVal → JsVal) (args : List JsVal) (st : Stage) :
    ((st = Stage.created ∨ st = Stage.domBuilt) →
      requireCall (requirejsAt loader st) args = Except.error ())
    ∧ (st ≠ Stage.created → st ≠ Stage.domBuilt →
      requireCall (requirejsAt loader st) args = Except.ok (loader args)) := by
  constructor
  · intro h
    cases h with
    | inl h => subst h; rfl
    | inr h => subst h; rfl
  · intro h1 h2
    cases st with
    | created => exact absurd rfl h1
    | domBuilt => exact absurd rfl h2
    | loaderConfigured => rfl
    | jqueryLoaded => rfl
    | backboneLoaded => rfl
    | done => rfl

/-- C8 witness: before the config step require throws; at the config step it
already forwards to the loader. -/
theorem require_loader_gate_check :
    requireCall (requirejsAt (fun _ => JsVal.box 0) Stage.created) [] = Except.error ()
    ∧ requireCall (requirejsAt (fun _ => JsVal.box 0) Stage.loaderConfigured) [] =
        Except.ok (JsVal.box 0) :=
  ⟨(require_loader_gate (fun _ => JsVal.box 0) [] Stage.created).1 (Or.inl rfl),
    (require_loader_gate (fun _ => JsVal.box 0) [] Stage.loaderConfigured).2
      (by decide) (by decide)⟩

/-- C9: evaluation of routeExists at its claimed and failing inputs.  The
trivial-match and falsy cases behave as the claim states (conjuncts 2 to 4),
but with one registered route whose matcher accepts the path, the function
returns the found handler element itself, an object carrying both the route
matcher and the callback, not the route pattern alone: the underscore find call
on line 117 yields the array element, while the function's own JSDoc declares
the return type RegExp or Boolean. -/
theorem route_exists_returns_handler :
    routeExists (some [⟨fun p => p == "/home", 7⟩]) "/home" =
      RouteExistsResult.handler ⟨fun p => p == "/home", 7⟩
    ∧ routeExists (some []) "" = RouteExistsResult.bool true
    ∧ routeExists none "/home" = RouteExistsResult.bool false
    ∧ routeExists (some [⟨fun p => p == "/home", 7⟩]) "/missing" =
        RouteExistsResult.bool false := by
  exact ⟨rfl, rfl, rfl, rfl⟩
